import Mathlib

/-!
Shallow embedding of the message-handling core of the sms-messenger
repository (`src/utils/api.ts`, class `ApiService`), together with proofs
about its operations.

Modelling conventions, used uniformly below:

* A canonical timestamp is modelled as a natural number (epoch
  milliseconds).  The source stores ISO 8601 strings produced by
  `Date.prototype.toISOString` and always compares them through
  `new Date(s).getTime()`; `toISOString` is injective on instants and
  `getTime` is its inverse, so instants stand for canonical strings.
* JavaScript `Date` parsing (`new Date(s)`) is not repository code; it is
  modelled as an environment parameter `parse : String -> Option Nat`
  giving the parsed instant of a string, `none` when parsing yields an
  invalid date (`isNaN(date.getTime())`).  The current time is an
  environment parameter `now : Nat`.
* The network is modelled by outcome values (`FetchOutcome`,
  `SendOutcome`) describing what the single `fetch` call of each
  operation did: success with a body, a non-2xx response, a timeout
  (`AbortError`), or a rejected promise carrying an error message.
* The optional TypeScript field `id?: string` is modelled as a `String`
  where the empty string stands for `undefined`: the source only ever
  tests the field by truthiness (`!msg.id`, `if (optimisticMessage.id)`),
  which identifies `undefined` and `""`.
* The `Set<string>` of processed ids is modelled as a `List String` used
  only through membership, insertion and clearing, exactly like the
  source uses `has` / `add` / `clear`.
-/

/-- Logical message direction of the internal `Message` type. -/
inductive Direction where
  | Incoming : Direction
  | Outgoing : Direction
deriving DecidableEq, Repr

/-- Delivery status values of the internal `Message` type. -/
inductive MessageStatus where
  | sent : MessageStatus
  | delivered : MessageStatus
  | read : MessageStatus
  | failed : MessageStatus
deriving DecidableEq, Repr

/-- Internal message record (`Message` in `src/types`), with the canonical
timestamp as an instant (see the header comment). -/
structure Message where
  conversationId : String
  timestamp : Nat
  body : String
  direction : Direction
  id : String
  status : Option MessageStatus
deriving DecidableEq, Repr

/-- Transport-side direction tag of an API message. -/
inductive ApiDirection where
  | INBOUND : ApiDirection
  | OUTBOUND : ApiDirection
deriving DecidableEq, Repr

/-- Raw message as returned by the read endpoint (`ApiMessage` in
`src/utils/api.ts`). -/
structure ApiMessage where
  id : String
  phoneNumber : Nat
  direction : ApiDirection
  lastMessage : String
  lastMessageHK : String
  lastMessageSL : String
deriving DecidableEq, Repr

/-- Conversation summary (`Contact` in `src/types`). -/
structure Contact where
  phone : String
  name : String
  lastMessage : String
  timestamp : Nat
  unread : Bool
deriving DecidableEq, Repr

/-- Result wrapper used by every public operation (`ApiResponse<T>`). -/
structure ApiResponse (α : Type) where
  data : α
  error : Option String := none
deriving DecidableEq, Repr

/-- The mutable state of the `ApiService` singleton that the claims are
about: the dedup set of seen identifiers and the message store. -/
structure ApiState where
  processedMessageIds : List String
  allMessages : List Message
deriving DecidableEq, Repr

/-- JavaScript `Set.prototype.add` on the list-modelled id set: a no-op
when the element is already present. -/
def addSeen (i : String) (l : List String) : List String :=
  if i ∈ l then l else i :: l

/-- `pat` occurs as a prefix of `s` (character lists). -/
def isPrefixList : List Char → List Char → Bool
  | [], _ => true
  | _ :: _, [] => false
  | p :: ps, c :: cs => p == c && isPrefixList ps cs

/-- `pat` occurs as a contiguous sublist of `s` (character lists). -/
def hasSubList (pat : List Char) : List Char → Bool
  | [] => pat.isEmpty
  | c :: cs => isPrefixList pat (c :: cs) || hasSubList pat cs

/-- JavaScript `String.prototype.includes`. -/
def containsStr (s pat : String) : Bool :=
  hasSubList pat.toList s.toList

/-- The blank-endpoint test `!url || url.trim() === ''`: the URL is empty
or trims to the empty string, i.e. consists of whitespace only. -/
def blankUrl (s : String) : Bool :=
  s = "" || s.toList.all Char.isWhitespace

/-- Timestamp normalizer (`ApiService.convertTimestamp`).  The source
first tries `new Date` when the string looks locale formatted (contains
a slash and a comma), then tries `new Date` directly, and finally falls
back to the current time; the surrounding try/catch also returns the
current time.  It returns `date.toISOString()`; under the instant/ISO
identification the result is the canonical instant itself. -/
def convertTimestamp (parse : String → Option Nat) (now : Nat)
    (timestamp : String) : Nat :=
  if timestamp.toList.contains '/' && timestamp.toList.contains ',' then
    match parse timestamp with
    | some t => t
    | none =>
      match parse timestamp with
      | some t => t
      | none => now
  else
    match parse timestamp with
    | some t => t
    | none => now

/-- Conversion of a raw API message to the internal format
(`ApiService.convertApiMessage`). -/
def convertApiMessage (parse : String → Option Nat) (now : Nat)
    (apiMessage : ApiMessage) : Message :=
  let direction :=
    if apiMessage.direction = ApiDirection.INBOUND then Direction.Incoming
    else Direction.Outgoing
  let conversationId := toString apiMessage.phoneNumber
  { conversationId := conversationId
    timestamp := convertTimestamp parse now apiMessage.lastMessageHK
    body := apiMessage.lastMessage
    direction := direction
    id := apiMessage.id
    status :=
      if direction = Direction.Outgoing then some MessageStatus.delivered
      else none }

/-- One element of a JSON array response.  Per-element validation in the
source is a dynamic type check on JSON values, which the embedding
abstracts as: an element either passes the required-field schema and
denotes an `ApiMessage`, or fails it and is dropped by the filter. -/
inductive RawElem where
  | valid : ApiMessage → RawElem
  | invalid : RawElem
deriving DecidableEq, Repr

/-- The `ApiMessage` denoted by a schema-passing element, if any. -/
def RawElem.toValid : RawElem → Option ApiMessage
  | RawElem.valid m => some m
  | RawElem.invalid => none

/-- Parsed JSON body of a 2xx response of the read endpoint. -/
inductive ResponseBody where
  | arr : List RawElem → ResponseBody
  | notArray : ResponseBody
deriving DecidableEq, Repr

/-- What the single `fetch` of `fetchMessagesFromApi` did. -/
inductive FetchOutcome where
  | success : ResponseBody → FetchOutcome
  | httpFailure : Nat → String → String → FetchOutcome
  | timeout : FetchOutcome
  | networkFailure : String → FetchOutcome
deriving DecidableEq, Repr

/-- Error text thrown for a non-2xx response: `HTTP status: statusText`
followed by the best-effort body text. -/
def httpErrorText (status : Nat) (statusText bodyText : String) : String :=
  "HTTP " ++ toString status ++ ": " ++ statusText ++
    (if bodyText ≠ "" then " - " ++ bodyText else "")

/-- The catch block of `fetchMessagesFromApi`: classify a thrown error by
its name and message into the user-facing error string. -/
def classifyGetError (name message : String) : String :=
  if name = "AbortError" then
    "Request timeout - n8n endpoint took too long to respond"
  else if containsStr message "NetworkError" ||
      containsStr message "ERR_NETWORK" then
    "Network error - cannot reach n8n endpoint. Please check your internet connection and n8n URL in Settings."
  else if containsStr message "Failed to fetch" then
    "Cannot connect to n8n endpoint. Please check your internet connection and n8n URL in Settings."
  else if containsStr message "ENOTFOUND" ||
      containsStr message "ECONNREFUSED" then
    "n8n endpoint not found or refused connection. Please verify the URL in Settings and ensure n8n is running."
  else message

/-- Error message thrown when the read endpoint is not configured. -/
def getUrlMissingText : String :=
  "n8n Get Messages URL not configured. Please check Settings."

/-- `ApiService.fetchMessagesFromApi`, as a function of the configured
read endpoint and the outcome of the (at most one) network call.  The
blank-endpoint check precedes the network call, so in that case the
result does not depend on the outcome parameter at all. -/
def fetchMessagesFromApi (getUrl : String) (env : FetchOutcome) :
    ApiResponse (List ApiMessage) :=
  if blankUrl getUrl then
    { data := [], error := some (classifyGetError "Error" getUrlMissingText) }
  else
    match env with
    | FetchOutcome.success (ResponseBody.arr elems) =>
        { data := elems.filterMap RawElem.toValid, error := none }
    | FetchOutcome.success ResponseBody.notArray =>
        { data := []
          error := some "API response must be an array of message objects. Please check your n8n webhook configuration." }
    | FetchOutcome.httpFailure status statusText bodyText =>
        { data := []
          error := some (classifyGetError "Error"
            (httpErrorText status statusText bodyText)) }
    | FetchOutcome.timeout =>
        { data := []
          error := some (classifyGetError "AbortError"
            "The operation was aborted") }
    | FetchOutcome.networkFailure message =>
        { data := [], error := some (classifyGetError "Error" message) }

/-- Comparator of the store sort in `pollMessages`: ascending canonical
timestamp. -/
def msgLe (a b : Message) : Prop := a.timestamp ≤ b.timestamp

instance : DecidableRel msgLe := fun a b => Nat.decLe a.timestamp b.timestamp

instance : IsTotal Message msgLe := ⟨fun a b => Nat.le_total a.timestamp b.timestamp⟩

instance : IsTrans Message msgLe := ⟨fun _ _ _ h h' => Nat.le_trans h h'⟩

/-- One step of the stateful `filter` of `pollMessages` lines 270-278:
the accumulator carries the dedup set and the genuinely-new messages
collected so far. -/
def dedupStep (acc : List String × List Message) (msg : Message) :
    List String × List Message :=
  if msg.id = "" then acc
  else if msg.id ∈ acc.1 then acc
  else (msg.id :: acc.1, acc.2 ++ [msg])

/-- The stateful dedup filter of `pollMessages`: returns the grown dedup
set and the genuinely-new messages in iteration order. -/
def dedupFilter (seen : List String) (msgs : List Message) :
    List String × List Message :=
  msgs.foldl dedupStep (seen, [])

/-- The merge step of a successful poll (`pollMessages` lines 262-278),
the operation the specification calls `replaceAll`: the store is replaced
by the converted batch sorted ascending by timestamp (`Array.prototype.sort`
sorts in place, so the subsequent dedup filter iterates the sorted
array), and the genuinely-new increment is computed against the dedup
set.  Returns the new state and the increment. -/
def replaceAll (converted : List Message) (s : ApiState) :
    ApiState × List Message :=
  let sorted := List.insertionSort msgLe converted
  let r := dedupFilter s.processedMessageIds sorted
  ({ processedMessageIds := r.1, allMessages := sorted }, r.2)

/-- Observable effects of one `pollMessages` call: the state afterwards,
the error-callback invocations, the new-message-callback invocations, and
whether the 60 second backoff retry was scheduled. -/
structure PollOutput where
  state : ApiState
  errorEvents : List String
  newMessageEvents : List (List Message)
  retryScheduled : Bool
deriving DecidableEq, Repr

/-- `ApiService.pollMessages`.  On `result.error` (JavaScript truthiness:
a present, non-empty string) it surfaces the error once and schedules the
60 second retry; otherwise it converts the batch and merges it via
`replaceAll`, firing the new-message callback only when the increment is
non-empty. -/
def pollMessages (env : FetchOutcome) (parse : String → Option Nat)
    (now : Nat) (getUrl : String) (s : ApiState) : PollOutput :=
  let result := fetchMessagesFromApi getUrl env
  if result.error.getD "" ≠ "" then
    { state := s
      errorEvents := [result.error.getD ""]
      newMessageEvents := []
      retryScheduled := true }
  else
    let converted := result.data.map (convertApiMessage parse now)
    let r := replaceAll converted s
    { state := r.1
      errorEvents := []
      newMessageEvents := if r.2.length > 0 then [r.2] else []
      retryScheduled := false }

/-- `ApiService.formatPhoneNumber`. -/
def formatPhoneNumber (phone : String) : String :=
  let cleaned := phone.toList.filter Char.isDigit
  if cleaned.length = 11 ∧ cleaned.head? = some '1' then
    let number := cleaned.drop 1
    "+1 (" ++ String.mk (number.take 3) ++ ") " ++
      String.mk ((number.drop 3).take 3) ++ "-" ++ String.mk (number.drop 6)
  else if cleaned.length = 10 then
    "(" ++ String.mk (cleaned.take 3) ++ ") " ++
      String.mk ((cleaned.drop 3).take 3) ++ "-" ++ String.mk (cleaned.drop 6)
  else if cleaned.length > 10 then
    "+" ++ String.mk cleaned
  else phone

/-- Lookup in the conversation map (`Map.prototype.get`), modelled on an
insertion-ordered association list. -/
def lookupContact (p : String) : List (String × Contact) → Option Contact
  | [] => none
  | (k, c) :: rest => if k = p then some c else lookupContact p rest

/-- `Map.prototype.set`: replace in place when the key exists, else
append at the end (JavaScript maps preserve insertion order). -/
def setContact (p : String) (c : Contact) :
    List (String × Contact) → List (String × Contact)
  | [] => [(p, c)]
  | (k, c') :: rest =>
    if k = p then (p, c) :: rest else (k, c') :: setContact p c rest

/-- Timestamp of the existing map entry; `new Date(0)` when absent. -/
def existingTimeOf : Option Contact → Nat
  | some c => c.timestamp
  | none => 0

/-- One step of the grouping loop of `fetchConversations` lines 346-378.
The second branch of the source (mark an existing summary unread) is
kept although its guard repeats `messageTime > existingTime`, which is
false whenever the first guard failed. -/
def convStep (acc : List (String × Contact)) (message : Message) :
    List (String × Contact) :=
  let phone := message.conversationId
  let existing := lookupContact phone acc
  let messageTime := message.timestamp
  let existingTime := existingTimeOf existing
  if existing = none ∨ existingTime < messageTime then
    setContact phone
      { phone := phone
        name := formatPhoneNumber phone
        lastMessage := message.body
        timestamp := message.timestamp
        unread := decide (message.direction = Direction.Incoming) &&
          (existing.isNone || decide (existingTime < messageTime)) } acc
  else if existing ≠ none ∧ message.direction = Direction.Incoming ∧
      existingTime < messageTime then
    match existing with
    | some c => setContact phone { c with unread := true } acc
    | none => acc
  else acc

/-- Comparator of the conversation sort: descending timestamp. -/
def contactGe (a b : Contact) : Prop := b.timestamp ≤ a.timestamp

instance : DecidableRel contactGe := fun a b => Nat.decLe b.timestamp a.timestamp

instance : IsTotal Contact contactGe := ⟨fun a b => (Nat.le_total b.timestamp a.timestamp)⟩

instance : IsTrans Contact contactGe := ⟨fun _ _ _ h h' => Nat.le_trans h' h⟩

/-- The pure computation of `fetchConversations`: group the stored
messages by conversation key, keeping per key the summary built from the
message with the greatest timestamp seen so far, then sort the summaries
descending by timestamp. -/
def buildConversations (messages : List Message) : List Contact :=
  let conversationMap := messages.foldl convStep []
  List.insertionSort contactGe (conversationMap.map Prod.snd)

/-- `ApiService.fetchConversations`.  The method only reads
`this.allMessages` and assigns no field of the service, so the embedded
operation returns the state unchanged; the surrounding try/catch cannot
fire in the embedded pure computation. -/
def fetchConversations (s : ApiState) :
    ApiResponse (List Contact) × ApiState :=
  ({ data := buildConversations s.allMessages, error := none }, s)

/-- What the single `fetch` of `sendMessage` did. -/
inductive SendOutcome where
  | ok : SendOutcome
  | httpFailure : Nat → String → String → SendOutcome
  | timeout : SendOutcome
  | networkFailure : String → SendOutcome
deriving DecidableEq, Repr

/-- The optimistic message pushed by a successful `sendMessage`.  The
source stamps it with `new Date().toISOString()` and ids it with
`temp-` followed by `Date.now()`; both reads of the clock are modelled
by the same `nowMs`. -/
def optimisticMessage (toAddr body : String) (nowMs : Nat) : Message :=
  { conversationId := toAddr
    timestamp := nowMs
    body := body
    direction := Direction.Outgoing
    id := "temp-" ++ toString nowMs
    status := some MessageStatus.sent }

/-- Error message thrown when the write endpoint is not configured. -/
def sendUrlMissingText : String :=
  "n8n Send Message URL not configured. Please check Settings."

/-- The catch block of `sendMessage` (it has fewer classification
branches than the fetch-side catch). -/
def classifySendError (name message : String) : String :=
  if name = "AbortError" then
    "Send timeout - n8n endpoint took too long to respond"
  else if containsStr message "Failed to fetch" then
    "Cannot connect to n8n endpoint. Please check your internet connection and n8n URL in Settings."
  else message

/-- `ApiService.sendMessage`.  On success it pushes the optimistic
message onto the store and marks its id seen; on any failure it leaves
the state untouched and returns `data = false` with an error string. -/
def sendMessage (webhookUrl : String) (nowMs : Nat) (env : SendOutcome)
    (toAddr body : String) (s : ApiState) : ApiResponse Bool × ApiState :=
  if blankUrl webhookUrl then
    ({ data := false
       error := some (classifySendError "Error" sendUrlMissingText) }, s)
  else
    match env with
    | SendOutcome.ok =>
        let opt := optimisticMessage toAddr body nowMs
        ({ data := true, error := none },
         { processedMessageIds := addSeen opt.id s.processedMessageIds
           allMessages := s.allMessages ++ [opt] })
    | SendOutcome.httpFailure status statusText bodyText =>
        ({ data := false
           error := some (classifySendError "Error"
             (httpErrorText status statusText bodyText)) }, s)
    | SendOutcome.timeout =>
        ({ data := false
           error := some (classifySendError "AbortError"
             "The operation was aborted") }, s)
    | SendOutcome.networkFailure message =>
        ({ data := false
           error := some (classifySendError "Error" message) }, s)

/-- `ApiService.resetProcessedMessages`: clears the dedup set and the
message store. -/
def resetProcessedMessages (_s : ApiState) : ApiState :=
  { processedMessageIds := [], allMessages := [] }

/-- Store/dedup-set consistency invariant: every stored message with a
non-empty identifier has that identifier in the dedup set. -/
def StoreInv (s : ApiState) : Prop :=
  ∀ m ∈ s.allMessages, m.id ≠ "" → m.id ∈ s.processedMessageIds

instance (s : ApiState) : Decidable (StoreInv s) :=
  List.decidableBAll _ s.allMessages

/-! ### Lemmas about the dedup filter -/

theorem dedupStep_id_empty {seen : List String} {out : List Message}
    {msg : Message} (h : msg.id = "") : dedupStep (seen, out) msg = (seen, out) := by
  simp [dedupStep, h]

theorem dedupStep_id_seen {seen : List String} {out : List Message}
    {msg : Message} (h : msg.id ≠ "") (h2 : msg.id ∈ seen) :
    dedupStep (seen, out) msg = (seen, out) := by
  simp [dedupStep, h, h2]

theorem dedupStep_id_new {seen : List String} {out : List Message}
    {msg : Message} (h : msg.id ≠ "") (h2 : msg.id ∉ seen) :
    dedupStep (seen, out) msg = (msg.id :: seen, out ++ [msg]) := by
  simp [dedupStep, h, h2]

/-- The collected-output component of the fold is an accumulator: folding
from `(seen, out)` appends to `out` what folding from `(seen, [])`
produces. -/
theorem dedup_foldl_eq (msgs : List Message) :
    ∀ (seen : List String) (out : List Message),
    msgs.foldl dedupStep (seen, out) =
      ((dedupFilter seen msgs).1, out ++ (dedupFilter seen msgs).2) := by
  induction msgs with
  | nil => intro seen out; simp [dedupFilter]
  | cons m ms ih =>
    intro seen out
    simp only [dedupFilter, List.foldl_cons]
    by_cases h1 : m.id = ""
    · rw [dedupStep_id_empty h1, dedupStep_id_empty h1]
      exact ih seen out
    · by_cases h2 : m.id ∈ seen
      · rw [dedupStep_id_seen h1 h2, dedupStep_id_seen h1 h2]
        exact ih seen out
      · rw [dedupStep_id_new h1 h2, dedupStep_id_new h1 h2]
        rw [ih (m.id :: seen) (out ++ [m]), ih (m.id :: seen) ([] ++ [m])]
        simp

/-- The dedup set only grows. -/
theorem dedup_seen_mono (msgs : List Message) :
    ∀ (seen : List String) (i : String), i ∈ seen →
      i ∈ (dedupFilter seen msgs).1 := by
  induction msgs with
  | nil => intro seen i hi; simpa [dedupFilter] using hi
  | cons m ms ih =>
    intro seen i hi
    simp only [dedupFilter, List.foldl_cons]
    by_cases h1 : m.id = ""
    · rw [dedupStep_id_empty h1]; exact ih seen i hi
    · by_cases h2 : m.id ∈ seen
      · rw [dedupStep_id_seen h1 h2]; exact ih seen i hi
      · rw [dedupStep_id_new h1 h2, dedup_foldl_eq]
        exact ih (m.id :: seen) i (List.mem_cons_of_mem _ hi)

/-- Every non-empty identifier of the filtered list ends up in the dedup
set. -/
theorem dedup_seen_of_mem (msgs : List Message) :
    ∀ (seen : List String) (m : Message), m ∈ msgs → m.id ≠ "" →
      m.id ∈ (dedupFilter seen msgs).1 := by
  induction msgs with
  | nil => intro _ _ h; cases h
  | cons m' ms ih =>
    intro seen m hm hne
    simp only [dedupFilter, List.foldl_cons]
    rcases List.mem_cons.mp hm with rfl | hm'
    · by_cases h2 : m.id ∈ seen
      · rw [dedupStep_id_seen hne h2, dedup_foldl_eq]
        exact dedup_seen_mono ms seen m.id h2
      · rw [dedupStep_id_new hne h2, dedup_foldl_eq]
        exact dedup_seen_mono ms _ m.id (List.mem_cons_self _ _)
    · by_cases h1 : m'.id = ""
      · rw [dedupStep_id_empty h1]; exact ih seen m hm' hne
      · by_cases h2 : m'.id ∈ seen
        · rw [dedupStep_id_seen h1 h2]; exact ih seen m hm' hne
        · rw [dedupStep_id_new h1 h2, dedup_foldl_eq]
          have := ih (m'.id :: seen) m hm' hne
          simpa [dedupFilter] using this

/-- Every genuinely-new message comes from the input, has a non-empty
identifier, and was not previously seen. -/
theorem dedup_new_mem (msgs : List Message) :
    ∀ (seen : List String) (m : Message), m ∈ (dedupFilter seen msgs).2 →
      m ∈ msgs ∧ m.id ≠ "" ∧ m.id ∉ seen := by
  induction msgs with
  | nil => intro seen m hm; simp [dedupFilter] at hm
  | cons m' ms ih =>
    intro seen m hm
    simp only [dedupFilter, List.foldl_cons] at hm
    by_cases h1 : m'.id = ""
    · rw [dedupStep_id_empty h1] at hm
      obtain ⟨h, h', h''⟩ := ih seen m hm
      exact ⟨List.mem_cons_of_mem _ h, h', h''⟩
    · by_cases h2 : m'.id ∈ seen
      · rw [dedupStep_id_seen h1 h2] at hm
        obtain ⟨h, h', h''⟩ := ih seen m hm
        exact ⟨List.mem_cons_of_mem _ h, h', h''⟩
      · rw [dedupStep_id_new h1 h2, dedup_foldl_eq] at hm
        simp only [List.nil_append, List.singleton_append, List.mem_cons] at hm
        rcases hm with rfl | hm'
        · exact ⟨List.mem_cons_self _ _, h1, h2⟩
        · obtain ⟨h, h', h''⟩ := ih (m'.id :: seen) m hm'
          refine ⟨List.mem_cons_of_mem _ h, h', fun hc => h'' ?_⟩
          exact List.mem_cons_of_mem _ hc

/-- With pairwise-distinct non-empty identifiers the genuinely-new list
is exactly the sub-list of not-yet-seen messages, in iteration order. -/
theorem dedup_nodup_eq_filter (msgs : List Message) :
    ∀ (seen : List String), (msgs.map Message.id).Nodup →
      (∀ m ∈ msgs, m.id ≠ "") →
      (dedupFilter seen msgs).2 =
        msgs.filter (fun m => decide (m.id ∉ seen)) := by
  induction msgs with
  | nil => intro seen _ _; simp [dedupFilter]
  | cons m ms ih =>
    intro seen hnd hne
    have hmne : m.id ≠ "" := hne m (List.mem_cons_self _ _)
    have hnd' : (ms.map Message.id).Nodup := (List.nodup_cons.mp (by simpa using hnd)).2
    have hnotin : m.id ∉ ms.map Message.id := (List.nodup_cons.mp (by simpa using hnd)).1
    simp only [dedupFilter, List.foldl_cons]
    by_cases h2 : m.id ∈ seen
    · rw [dedupStep_id_seen hmne h2]
      have := ih seen hnd' (fun m' hm' => hne m' (List.mem_cons_of_mem _ hm'))
      simp only [dedupFilter] at this
      rw [this, List.filter_cons]
      simp [h2]
    · rw [dedupStep_id_new hmne h2, dedup_foldl_eq]
      have := ih (m.id :: seen) hnd' (fun m' hm' => hne m' (List.mem_cons_of_mem _ hm'))
      rw [this, List.filter_cons]
      have hfc : ms.filter (fun m' => decide (m'.id ∉ m.id :: seen)) =
          ms.filter (fun m' => decide (m'.id ∉ seen)) := by
        apply List.filter_congr
        intro m' hm'
        have : m'.id ≠ m.id := by
          intro hc
          exact hnotin (hc ▸ List.mem_map_of_mem Message.id hm')
        simp [List.mem_cons, this]
      rw [hfc]
      simp [h2]

/-- When every identifier is empty or already seen, nothing is new. -/
theorem dedup_all_seen_empty (msgs : List Message) :
    ∀ (seen : List String), (∀ m ∈ msgs, m.id = "" ∨ m.id ∈ seen) →
      (dedupFilter seen msgs).2 = [] := by
  induction msgs with
  | nil => intro seen _; simp [dedupFilter]
  | cons m ms ih =>
    intro seen h
    simp only [dedupFilter, List.foldl_cons]
    rcases h m (List.mem_cons_self _ _) with h1 | h2
    · rw [dedupStep_id_empty h1]
      exact ih seen (fun m' hm' => h m' (List.mem_cons_of_mem _ hm'))
    · by_cases h1 : m.id = ""
      · rw [dedupStep_id_empty h1]
        exact ih seen (fun m' hm' => h m' (List.mem_cons_of_mem _ hm'))
      · rw [dedupStep_id_seen h1 h2]
        exact ih seen (fun m' hm' => h m' (List.mem_cons_of_mem _ hm'))

/-- Conversion preserves the raw identifier. -/
theorem convertApiMessage_id (parse : String → Option Nat) (now : Nat)
    (a : ApiMessage) : (convertApiMessage parse now a).id = a.id := rfl

theorem map_convert_id (parse : String → Option Nat) (now : Nat)
    (batch : List ApiMessage) :
    (batch.map (convertApiMessage parse now)).map Message.id =
      batch.map ApiMessage.id := by
  rw [List.map_map]
  exact List.map_congr_left fun a _ => convertApiMessage_id parse now a

/-- C1.  For a batch of valid raw messages with pairwise-distinct
non-empty identifiers, the merge of a successful poll (`replaceAll`)
stores exactly the N converted messages; the genuinely-new increment is
the whole batch when none of its identifiers was seen, is empty on an
immediately repeated call with the same batch, and in general carries
exactly the identifiers of the batch that were not seen before; and for
arbitrary batches, messages with an empty identifier are stored but never
part of the increment. -/
theorem c1_replaceAll_snapshot_and_increment
    (parse : String → Option Nat) (now : Nat) (batch : List ApiMessage)
    (s : ApiState)
    (hnodup : (batch.map ApiMessage.id).Nodup)
    (hne : ∀ a ∈ batch, a.id ≠ "") :
    ((replaceAll (batch.map (convertApiMessage parse now)) s).1.allMessages.Perm
        (batch.map (convertApiMessage parse now)))
    ∧ (replaceAll (batch.map (convertApiMessage parse now)) s).1.allMessages.length
        = batch.length
    ∧ ((∀ a ∈ batch, a.id ∉ s.processedMessageIds) →
        ((replaceAll (batch.map (convertApiMessage parse now)) s).2.Perm
          (batch.map (convertApiMessage parse now))))
    ∧ (replaceAll (batch.map (convertApiMessage parse now))
        (replaceAll (batch.map (convertApiMessage parse now)) s).1).2 = []
    ∧ (((replaceAll (batch.map (convertApiMessage parse now)) s).2.map Message.id).Perm
        ((batch.map ApiMessage.id).filter
          (fun i => decide (i ∉ s.processedMessageIds))))
    ∧ (∀ (converted : List Message) (s' : ApiState),
        (∀ m ∈ (replaceAll converted s').2, m.id ≠ "") ∧
        (∀ m ∈ converted, m ∈ (replaceAll converted s').1.allMessages)) := by
  have hidmap := map_convert_id parse now batch
  have hperm : (List.insertionSort msgLe (batch.map (convertApiMessage parse now))).Perm
      (batch.map (convertApiMessage parse now)) :=
    List.perm_insertionSort msgLe _
  have hsortedids : ((List.insertionSort msgLe
      (batch.map (convertApiMessage parse now))).map Message.id).Perm
      (batch.map ApiMessage.id) := hidmap ▸ hperm.map Message.id
  have hsortednodup : ((List.insertionSort msgLe
      (batch.map (convertApiMessage parse now))).map Message.id).Nodup :=
    hnodup.perm hsortedids.symm
  have hsortedne : ∀ m ∈ List.insertionSort msgLe
      (batch.map (convertApiMessage parse now)), m.id ≠ "" := by
    intro m hm
    obtain ⟨a, ha, rfl⟩ := List.mem_map.mp ((List.mem_insertionSort msgLe).mp hm)
    rw [convertApiMessage_id]
    exact hne a ha
  refine ⟨hperm, ?_, ?_, ?_, ?_, ?_⟩
  · simp only [replaceAll]
    rw [hperm.length_eq, List.length_map]
  · intro hfresh
    have heq := dedup_nodup_eq_filter _ s.processedMessageIds hsortednodup hsortedne
    have hall : ∀ m ∈ List.insertionSort msgLe
        (batch.map (convertApiMessage parse now)),
        (fun m => decide (m.id ∉ s.processedMessageIds)) m = true := by
      intro m hm
      obtain ⟨a, ha, rfl⟩ := List.mem_map.mp ((List.mem_insertionSort msgLe).mp hm)
      simpa [convertApiMessage_id] using hfresh a ha
    simp only [replaceAll]
    rw [heq, List.filter_eq_self.mpr hall]
    exact hperm
  · simp only [replaceAll]
    apply dedup_all_seen_empty
    intro m hm
    by_cases h : m.id = ""
    · exact Or.inl h
    · exact Or.inr (dedup_seen_of_mem _ s.processedMessageIds m hm h)
  · have heq := dedup_nodup_eq_filter _ s.processedMessageIds hsortednodup hsortedne
    simp only [replaceAll]
    rw [heq]
    have hcomm : List.filter (fun i => decide (i ∉ s.processedMessageIds))
        (List.map Message.id (List.insertionSort msgLe
          (batch.map (convertApiMessage parse now)))) =
        List.map Message.id (List.filter
          (fun m => decide (m.id ∉ s.processedMessageIds))
          (List.insertionSort msgLe (batch.map (convertApiMessage parse now)))) :=
      List.filter_map Message.id _
    rw [← hcomm]
    exact hsortedids.filter _
  · intro converted s'
    constructor
    · intro m hm
      exact (dedup_new_mem _ s'.processedMessageIds m hm).2.1
    · intro m hm
      simp only [replaceAll]
      exact (List.mem_insertionSort msgLe).mpr hm

/-- Witness for C1 at a concrete two-element batch and fresh state. -/
theorem c1_replaceAll_snapshot_and_increment_witness :
    ((replaceAll ([⟨"a", 555, ApiDirection.INBOUND, "hi", "t1", "u"⟩,
        ⟨"b", 555, ApiDirection.OUTBOUND, "yo", "t2", "u"⟩].map
          (convertApiMessage (fun _ => some 1) 9))
        ⟨[], []⟩).1.allMessages.Perm
      ([⟨"a", 555, ApiDirection.INBOUND, "hi", "t1", "u"⟩,
        ⟨"b", 555, ApiDirection.OUTBOUND, "yo", "t2", "u"⟩].map
          (convertApiMessage (fun _ => some 1) 9)))
    ∧ (replaceAll ([⟨"a", 555, ApiDirection.INBOUND, "hi", "t1", "u"⟩,
        ⟨"b", 555, ApiDirection.OUTBOUND, "yo", "t2", "u"⟩].map
          (convertApiMessage (fun _ => some 1) 9))
        (replaceAll ([⟨"a", 555, ApiDirection.INBOUND, "hi", "t1", "u"⟩,
          ⟨"b", 555, ApiDirection.OUTBOUND, "yo", "t2", "u"⟩].map
            (convertApiMessage (fun _ => some 1) 9)) ⟨[], []⟩).1).2 = [] := by
  have h := c1_replaceAll_snapshot_and_increment (fun _ => some 1) 9
    [⟨"a", 555, ApiDirection.INBOUND, "hi", "t1", "u"⟩,
     ⟨"b", 555, ApiDirection.OUTBOUND, "yo", "t2", "u"⟩]
    ⟨[], []⟩ (by decide) (by decide)
  exact ⟨h.1, h.2.2.2.1⟩

/-! ### Claim C6: the timestamp normalizer is total with now-fallback -/

/-- C6.  The timestamp normalizer is a total function: whatever the
input string, it returns the natively parsed instant when parsing
succeeds and the current time when parsing fails, never an error (both
the explicit invalid-date checks and the surrounding try/catch of the
source collapse to the same fallback). -/
theorem c6_convertTimestamp_total (parse : String → Option Nat)
    (now : Nat) (timestamp : String) :
    convertTimestamp parse now timestamp = (parse timestamp).getD now := by
  unfold convertTimestamp
  cases h : parse timestamp <;> split <;> simp [h]

/-! ### Claim C8: store and dedup set stay consistent -/

theorem mem_addSeen_self (i : String) (l : List String) : i ∈ addSeen i l := by
  by_cases h : i ∈ l <;> simp [addSeen, h]

theorem mem_addSeen_of_mem (j : String) {i : String} {l : List String}
    (h : i ∈ l) : i ∈ addSeen j l := by
  by_cases hj : j ∈ l <;> simp [addSeen, hj, h]

/-- The merge of a successful poll re-establishes the store invariant
from scratch (the replaced store only keeps messages whose non-empty ids
were pushed through the dedup filter). -/
theorem replaceAll_storeInv (converted : List Message) (s : ApiState) :
    StoreInv (replaceAll converted s).1 := by
  intro m hm hne
  simp only [replaceAll] at hm ⊢
  exact dedup_seen_of_mem _ _ m hm hne

/-- C8.  Every store operation preserves the invariant that each stored
message with a non-empty identifier has that identifier in the dedup
set: polling (both its failure and its merge path), sending (both its
failure and its optimistic-append path), and reset. -/
theorem c8_store_dedup_consistent (s : ApiState) (h : StoreInv s) :
    (∀ (env : FetchOutcome) (parse : String → Option Nat) (now : Nat)
      (getUrl : String), StoreInv (pollMessages env parse now getUrl s).state)
    ∧ (∀ (webhookUrl : String) (nowMs : Nat) (env : SendOutcome)
      (toAddr body : String),
      StoreInv (sendMessage webhookUrl nowMs env toAddr body s).2)
    ∧ StoreInv (resetProcessedMessages s) := by
  refine ⟨?_, ?_, ?_⟩
  · intro env parse now getUrl
    simp only [pollMessages]
    split
    · exact h
    · exact replaceAll_storeInv _ s
  · intro webhookUrl nowMs env toAddr body
    simp only [sendMessage]
    split
    · exact h
    · cases env with
      | ok =>
        intro m hm hne
        simp only [List.mem_append, List.mem_singleton] at hm
        rcases hm with hm | rfl
        · exact mem_addSeen_of_mem _ (h m hm hne)
        · exact mem_addSeen_self _ _
      | httpFailure st stx bt => exact h
      | timeout => exact h
      | networkFailure msg => exact h
  · intro m hm
    simp [resetProcessedMessages] at hm

/-- Witness for C8 at a concrete state satisfying the invariant. -/
theorem c8_store_dedup_consistent_witness :
    StoreInv ((sendMessage "u" 7 SendOutcome.ok "555" "hi"
      ⟨["x"], [⟨"555", 3, "b", Direction.Incoming, "x", none⟩]⟩).2) ∧
    StoreInv (resetProcessedMessages
      ⟨["x"], [⟨"555", 3, "b", Direction.Incoming, "x", none⟩]⟩) := by
  have h := c8_store_dedup_consistent
    ⟨["x"], [⟨"555", 3, "b", Direction.Incoming, "x", none⟩]⟩ (by decide)
  exact ⟨h.2.1 "u" 7 SendOutcome.ok "555" "hi", h.2.2⟩

/-! ### Claim C10: sendMessage is atomic on failure -/

theorem httpErrorText_ne_empty (status : Nat) (statusText bodyText : String) :
    httpErrorText status statusText bodyText ≠ "" := by
  unfold httpErrorText
  intro h
  have h2 := congrArg String.length h
  simp only [String.length_append] at h2
  have h5 : ("HTTP ".length : Nat) = 5 := by decide
  have h0 : ("".length : Nat) = 0 := by decide
  omega

theorem classifySendError_ne_empty (name message : String)
    (h : message ≠ "") : classifySendError name message ≠ "" := by
  unfold classifySendError
  split
  · decide
  · split
    · decide
    · exact h

/-- C10.  On every failure path (blank webhook URL, non-2xx response,
timeout, network error whose runtime message is non-empty) `sendMessage`
leaves the service state untouched, appends no optimistic message, and
returns `data = false` together with a non-empty error string instead of
throwing. -/
theorem c10_sendMessage_failure_atomic (webhookUrl : String) (nowMs : Nat)
    (env : SendOutcome) (toAddr body : String) (s : ApiState)
    (hfail : blankUrl webhookUrl = true ∨ env ≠ SendOutcome.ok)
    (hmsg : ∀ msg, env = SendOutcome.networkFailure msg → msg ≠ "") :
    (sendMessage webhookUrl nowMs env toAddr body s).2 = s
    ∧ (sendMessage webhookUrl nowMs env toAddr body s).1.data = false
    ∧ ∃ e, (sendMessage webhookUrl nowMs env toAddr body s).1.error = some e
        ∧ e ≠ "" := by
  by_cases hb : blankUrl webhookUrl
  · have hs : sendMessage webhookUrl nowMs env toAddr body s =
        ({ data := false
           error := some (classifySendError "Error" sendUrlMissingText) }, s) := by
      simp [sendMessage, hb]
    rw [hs]
    exact ⟨rfl, rfl, _, rfl, by decide⟩
  · have henv : env ≠ SendOutcome.ok := by
      rcases hfail with hf | hf
      · exact absurd hf hb
      · exact hf
    cases env with
    | ok => exact absurd rfl henv
    | httpFailure st stx bt =>
      have hs : sendMessage webhookUrl nowMs (SendOutcome.httpFailure st stx bt)
          toAddr body s =
          ({ data := false
             error := some (classifySendError "Error"
               (httpErrorText st stx bt)) }, s) := by
        simp [sendMessage, hb]
      rw [hs]
      exact ⟨rfl, rfl, _, rfl,
        classifySendError_ne_empty _ _ (httpErrorText_ne_empty st stx bt)⟩
    | timeout =>
      have hs : sendMessage webhookUrl nowMs SendOutcome.timeout toAddr body s =
          ({ data := false
             error := some (classifySendError "AbortError"
               "The operation was aborted") }, s) := by
        simp [sendMessage, hb]
      rw [hs]
      exact ⟨rfl, rfl, _, rfl, by decide⟩
    | networkFailure msg =>
      have hs : sendMessage webhookUrl nowMs (SendOutcome.networkFailure msg)
          toAddr body s =
          ({ data := false
             error := some (classifySendError "Error" msg) }, s) := by
        simp [sendMessage, hb]
      rw [hs]
      exact ⟨rfl, rfl, _, rfl, classifySendError_ne_empty _ _ (hmsg msg rfl)⟩

/-- Witness for C10 at a concrete timed-out send. -/
theorem c10_sendMessage_failure_atomic_witness :
    (sendMessage "u" 7 SendOutcome.timeout "555" "hi" ⟨[], []⟩).2 = ⟨[], []⟩
    ∧ (sendMessage "u" 7 SendOutcome.timeout "555" "hi" ⟨[], []⟩).1.data = false
    ∧ ∃ e, (sendMessage "u" 7 SendOutcome.timeout "555" "hi"
        ⟨[], []⟩).1.error = some e ∧ e ≠ "" :=
  c10_sendMessage_failure_atomic "u" 7 SendOutcome.timeout "555" "hi"
    ⟨[], []⟩ (Or.inr (by decide)) (fun msg h => by cases h)

/-! ### Claim C4: what a successful send does to the store -/

/-- Counterexample to C4 as stated: after a successful `sendMessage` on
an empty state the message store is no longer empty, so the operation
does not leave the Message Store unchanged. -/
theorem c4_counterexample :
    (sendMessage "u" 77 SendOutcome.ok "555" "hi" ⟨[], []⟩).2
      ≠ (⟨[], []⟩ : ApiState) := by decide

/-- C4 as amended: on success `sendMessage` returns the success signal
and itself appends the optimistic message to the store and marks its
synthetic identifier as seen (callers do not append it). -/
theorem c4_sendMessage_success_appends (webhookUrl : String) (nowMs : Nat)
    (toAddr body : String) (s : ApiState) (h : blankUrl webhookUrl = false) :
    sendMessage webhookUrl nowMs SendOutcome.ok toAddr body s =
      ({ data := true, error := none },
       { processedMessageIds :=
           addSeen (optimisticMessage toAddr body nowMs).id s.processedMessageIds
         allMessages := s.allMessages ++ [optimisticMessage toAddr body nowMs] }) := by
  simp [sendMessage, h]

/-- Witness for the amended C4 at a concrete send. -/
theorem c4_sendMessage_success_appends_witness :
    sendMessage "u" 77 SendOutcome.ok "555" "hi" ⟨[], []⟩ =
      ({ data := true, error := none },
       { processedMessageIds :=
           addSeen (optimisticMessage "555" "hi" 77).id []
         allMessages := [] ++ [optimisticMessage "555" "hi" 77] }) :=
  c4_sendMessage_success_appends "u" 77 "555" "hi" ⟨[], []⟩ (by decide)

/-! ### Claim C2: behaviour on a blank read endpoint -/

/-- Counterexample to C2 as stated: with a blank read endpoint the poll
does schedule the 60 second backoff retry — the retry is scheduled for
every `result.error`, the configuration error included, contradicting
the claim that no retry is scheduled for that failure. -/
theorem c2_counterexample :
    (pollMessages FetchOutcome.timeout (fun _ => none) 0 ""
      ⟨[], []⟩).retryScheduled = true := by decide

/-- C2 as amended: with a blank read endpoint the fetch fails
synchronously with the configuration error before any network call (the
result does not depend on the network outcome at all), the error is
surfaced exactly once, the state is untouched — but the same single
60 second backoff retry used for the other failures is scheduled for
this failure as well. -/
theorem c2_blank_endpoint_config_error (getUrl : String)
    (h : blankUrl getUrl = true) :
    (∀ env env', fetchMessagesFromApi getUrl env = fetchMessagesFromApi getUrl env')
    ∧ (∀ env, fetchMessagesFromApi getUrl env =
        { data := [], error := some getUrlMissingText })
    ∧ (∀ (env : FetchOutcome) (parse : String → Option Nat) (now : Nat)
        (s : ApiState), pollMessages env parse now getUrl s =
        { state := s
          errorEvents := [getUrlMissingText]
          newMessageEvents := []
          retryScheduled := true }) := by
  have hclass : classifyGetError "Error" getUrlMissingText = getUrlMissingText := by
    decide
  have hfetch : ∀ env, fetchMessagesFromApi getUrl env =
      { data := [], error := some getUrlMissingText } := by
    intro env
    simp [fetchMessagesFromApi, h, hclass]
  refine ⟨fun env env' => by rw [hfetch env, hfetch env'], hfetch, ?_⟩
  intro env parse now s
  simp [pollMessages, hfetch env]
  decide

/-- Witness for the amended C2 at the empty endpoint string. -/
theorem c2_blank_endpoint_config_error_witness :
    pollMessages (FetchOutcome.success (ResponseBody.arr []))
      (fun _ => none) 0 "" ⟨[], []⟩ =
      { state := ⟨[], []⟩
        errorEvents := [getUrlMissingText]
        newMessageEvents := []
        retryScheduled := true } :=
  (c2_blank_endpoint_config_error "" (by decide)).2.2
    (FetchOutcome.success (ResponseBody.arr [])) (fun _ => none) 0 ⟨[], []⟩

/-! ### Claim C3: optimistic messages across a refresh -/

/-- Counterexample to C3 as stated: a message appended optimistically by
a successful send is gone from the store after the next successful poll
whose batch does not contain its identifier — `replaceAll` overwrites
the whole store with the fetched batch. -/
theorem c3_counterexample :
    optimisticMessage "555" "hello" 1000 ∈
      (sendMessage "u" 1000 SendOutcome.ok "555" "hello" ⟨[], []⟩).2.allMessages
    ∧ (∀ m ∈ [ApiMessage.mk "a" 555 ApiDirection.INBOUND "hi" "t1" "u"].map
        (convertApiMessage (fun _ => some 1) 9), m.id ≠ "temp-1000")
    ∧ optimisticMessage "555" "hello" 1000 ∉
      (pollMessages
        (FetchOutcome.success (ResponseBody.arr
          [RawElem.valid (ApiMessage.mk "a" 555 ApiDirection.INBOUND "hi" "t1" "u")]))
        (fun _ => some 1) 9 "u"
        (sendMessage "u" 1000 SendOutcome.ok "555" "hello"
          ⟨[], []⟩).2).state.allMessages := by decide

/-- C3 as amended: an optimistic message persists only until the next
successful fetch, which replaces the entire store; if the fetched batch
does not contain its identifier the optimistic entry is dropped (not
retained), while its identifier stays in the seen set. -/
theorem c3_optimistic_dropped_by_replaceAll (converted : List Message)
    (s : ApiState) (opt : Message) (_hopt : opt ∈ s.allMessages)
    (hnot : ∀ m ∈ converted, m.id ≠ opt.id) :
    opt ∉ (replaceAll converted s).1.allMessages
    ∧ (opt.id ∈ s.processedMessageIds →
        opt.id ∈ (replaceAll converted s).1.processedMessageIds) := by
  constructor
  · intro hmem
    simp only [replaceAll] at hmem
    have := (List.mem_insertionSort msgLe).mp hmem
    exact hnot opt this rfl
  · intro hseen
    simp only [replaceAll]
    exact dedup_seen_mono _ _ _ hseen

/-- Witness for the amended C3 at a concrete optimistic message. -/
theorem c3_optimistic_dropped_by_replaceAll_witness :
    optimisticMessage "555" "hello" 1000 ∉
      (replaceAll
        ([ApiMessage.mk "a" 555 ApiDirection.INBOUND "hi" "t1" "u"].map
          (convertApiMessage (fun _ => some 1) 9))
        ⟨["temp-1000"], [optimisticMessage "555" "hello" 1000]⟩).1.allMessages
    ∧ ((optimisticMessage "555" "hello" 1000).id ∈ ["temp-1000"] →
        (optimisticMessage "555" "hello" 1000).id ∈
          (replaceAll
            ([ApiMessage.mk "a" 555 ApiDirection.INBOUND "hi" "t1" "u"].map
              (convertApiMessage (fun _ => some 1) 9))
            ⟨["temp-1000"],
             [optimisticMessage "555" "hello" 1000]⟩).1.processedMessageIds) :=
  c3_optimistic_dropped_by_replaceAll _ _ _ (by decide) (by decide)

/-! ### Claim C7: duplicate identifiers inside one batch -/

/-- Counterexample to C7 as stated: a batch with two elements sharing one
identifier but different timestamps merges BOTH into the store (the store
is the whole sorted batch, it is not keyed by identifier), so it is not
the case that only one of them merges. -/
theorem c7_counterexample :
    ((replaceAll
      ([ApiMessage.mk "a" 555 ApiDirection.INBOUND "m1" "t1" "u",
        ApiMessage.mk "a" 555 ApiDirection.INBOUND "m2" "t2" "u"].map
        (convertApiMessage (fun ts => if ts = "t1" then some 1 else some 2) 9))
      ⟨[], []⟩).1.allMessages.length = 2)
    ∧ convertApiMessage (fun ts => if ts = "t1" then some 1 else some 2) 9
        (ApiMessage.mk "a" 555 ApiDirection.INBOUND "m1" "t1" "u") ∈
      (replaceAll
        ([ApiMessage.mk "a" 555 ApiDirection.INBOUND "m1" "t1" "u",
          ApiMessage.mk "a" 555 ApiDirection.INBOUND "m2" "t2" "u"].map
          (convertApiMessage (fun ts => if ts = "t1" then some 1 else some 2) 9))
        ⟨[], []⟩).1.allMessages
    ∧ convertApiMessage (fun ts => if ts = "t1" then some 1 else some 2) 9
        (ApiMessage.mk "a" 555 ApiDirection.INBOUND "m2" "t2" "u") ∈
      (replaceAll
        ([ApiMessage.mk "a" 555 ApiDirection.INBOUND "m1" "t1" "u",
          ApiMessage.mk "a" 555 ApiDirection.INBOUND "m2" "t2" "u"].map
          (convertApiMessage (fun ts => if ts = "t1" then some 1 else some 2) 9))
        ⟨[], []⟩).1.allMessages := by decide

/-- C7 as amended: both duplicate-identifier elements are stored (after
the ascending in-place sort), and the genuinely-new increment contains
exactly one of them — the element earliest in ascending-timestamp order,
whose first occurrence marks the identifier seen so that the later
occurrence is filtered out. -/
theorem c7_duplicate_id_first_sorted_wins (parse : String → Option Nat)
    (now : Nat) (a1 a2 : ApiMessage) (s : ApiState)
    (hid : a1.id = a2.id) (hne : a1.id ≠ "")
    (hts : (convertApiMessage parse now a1).timestamp <
      (convertApiMessage parse now a2).timestamp)
    (hfresh : a1.id ∉ s.processedMessageIds) :
    (replaceAll ([a1, a2].map (convertApiMessage parse now)) s).1.allMessages =
      [convertApiMessage parse now a1, convertApiMessage parse now a2]
    ∧ (replaceAll ([a1, a2].map (convertApiMessage parse now)) s).2 =
      [convertApiMessage parse now a1] := by
  have hid1 : (convertApiMessage parse now a1).id = a1.id :=
    convertApiMessage_id parse now a1
  have hid2 : (convertApiMessage parse now a2).id = a2.id :=
    convertApiMessage_id parse now a2
  have hsorted : List.Sorted msgLe
      [convertApiMessage parse now a1, convertApiMessage parse now a2] := by
    refine List.sorted_cons.mpr ⟨?_, List.sorted_singleton _⟩
    intro b hb
    rw [List.mem_singleton] at hb
    subst hb
    exact Nat.le_of_lt hts
  have hsort : List.insertionSort msgLe
      ([a1, a2].map (convertApiMessage parse now)) =
      [convertApiMessage parse now a1, convertApiMessage parse now a2] := by
    simpa using hsorted.insertionSort_eq
  have hne1 : (convertApiMessage parse now a1).id ≠ "" := by rw [hid1]; exact hne
  have hnotin1 : (convertApiMessage parse now a1).id ∉ s.processedMessageIds := by
    rw [hid1]; exact hfresh
  have hne2 : (convertApiMessage parse now a2).id ≠ "" := by
    rw [hid2, ← hid]; exact hne
  have hin2 : (convertApiMessage parse now a2).id ∈
      (convertApiMessage parse now a1).id :: s.processedMessageIds := by
    rw [hid2, hid1, hid]
    exact List.mem_cons_self _ _
  constructor
  · simp only [replaceAll]
    exact hsort
  · simp only [replaceAll, hsort, dedupFilter, List.foldl_cons, List.foldl_nil]
    rw [dedupStep_id_new hne1 hnotin1, dedupStep_id_seen hne2 hin2]
    simp

/-- Witness for the amended C7 at a concrete duplicate-identifier batch. -/
theorem c7_duplicate_id_first_sorted_wins_witness :
    (replaceAll ([ApiMessage.mk "a" 555 ApiDirection.INBOUND "m1" "t1" "u",
        ApiMessage.mk "a" 555 ApiDirection.INBOUND "m2" "t2" "u"].map
        (convertApiMessage (fun ts => if ts = "t1" then some 1 else some 2) 9))
      ⟨[], []⟩).1.allMessages =
      [convertApiMessage (fun ts => if ts = "t1" then some 1 else some 2) 9
        (ApiMessage.mk "a" 555 ApiDirection.INBOUND "m1" "t1" "u"),
       convertApiMessage (fun ts => if ts = "t1" then some 1 else some 2) 9
        (ApiMessage.mk "a" 555 ApiDirection.INBOUND "m2" "t2" "u")]
    ∧ (replaceAll ([ApiMessage.mk "a" 555 ApiDirection.INBOUND "m1" "t1" "u",
        ApiMessage.mk "a" 555 ApiDirection.INBOUND "m2" "t2" "u"].map
        (convertApiMessage (fun ts => if ts = "t1" then some 1 else some 2) 9))
      ⟨[], []⟩).2 =
      [convertApiMessage (fun ts => if ts = "t1" then some 1 else some 2) 9
        (ApiMessage.mk "a" 555 ApiDirection.INBOUND "m1" "t1" "u")] :=
  c7_duplicate_id_first_sorted_wins
    (fun ts => if ts = "t1" then some 1 else some 2) 9
    (ApiMessage.mk "a" 555 ApiDirection.INBOUND "m1" "t1" "u")
    (ApiMessage.mk "a" 555 ApiDirection.INBOUND "m2" "t2" "u")
    ⟨[], []⟩ (by decide) (by decide) (by decide) (by decide)

/-! ### Lemmas about the conversation grouping fold -/

/-- The summary built from a message when it becomes (or replaces) the
representative of its group. -/
def mkContact (m : Message) : Contact :=
  { phone := m.conversationId
    name := formatPhoneNumber m.conversationId
    lastMessage := m.body
    timestamp := m.timestamp
    unread := decide (m.direction = Direction.Incoming) }

theorem lookup_setContact (p q : String) (c : Contact) :
    ∀ l : List (String × Contact),
    lookupContact p (setContact q c l) =
      if q = p then some c else lookupContact p l
  | [] => by
    by_cases h : q = p <;> simp [setContact, lookupContact, h]
  | (k, c') :: rest => by
    by_cases hkq : k = q
    · subst hkq
      by_cases hp : k = p
      · subst hp
        simp [setContact, lookupContact]
      · simp [setContact, lookupContact, hp]
    · by_cases hp : k = p
      · subst hp
        have hqp : ¬q = k := fun h => hkq h.symm
        simp [setContact, lookupContact, hkq, hqp]
      · simp [setContact, lookupContact, hkq, hp,
          lookup_setContact p q c rest]

theorem convStep_lookup_ne (acc : List (String × Contact)) (m : Message)
    (p : String) (h : m.conversationId ≠ p) :
    lookupContact p (convStep acc m) = lookupContact p acc := by
  simp only [convStep]
  split_ifs with h1 h2
  · rw [lookup_setContact, if_neg h]
  · cases hx : lookupContact m.conversationId acc with
    | none => rfl
    | some c => rw [lookup_setContact, if_neg h]
  · rfl

theorem convStep_lookup_none (acc : List (String × Contact)) (m : Message)
    (h : lookupContact m.conversationId acc = none) :
    lookupContact m.conversationId (convStep acc m) = some (mkContact m) := by
  simp only [convStep, h, existingTimeOf]
  rw [if_pos (Or.inl trivial), lookup_setContact, if_pos rfl]
  simp [mkContact]

theorem convStep_lookup_lt (acc : List (String × Contact)) (m : Message)
    (c : Contact) (h : lookupContact m.conversationId acc = some c)
    (hlt : c.timestamp < m.timestamp) :
    lookupContact m.conversationId (convStep acc m) = some (mkContact m) := by
  simp only [convStep, h, existingTimeOf]
  rw [if_pos (Or.inr hlt), lookup_setContact, if_pos rfl]
  simp [mkContact, hlt]

theorem convStep_eq_of_ge (acc : List (String × Contact)) (m : Message)
    (c : Contact) (h : lookupContact m.conversationId acc = some c)
    (hge : m.timestamp ≤ c.timestamp) :
    convStep acc m = acc := by
  simp only [convStep, h, existingTimeOf]
  have h1 : ¬((some c : Option Contact) = none ∨ c.timestamp < m.timestamp) := by
    rintro (hc | hc)
    · cases hc
    · omega
  rw [if_neg h1]
  have h2 : ¬((some c : Option Contact) ≠ none ∧
      m.direction = Direction.Incoming ∧ c.timestamp < m.timestamp) := by
    rintro ⟨-, -, hlt⟩
    omega
  rw [if_neg h2]

/-- Invariant during the grouping fold, relative to a distinguished
message `w`: whatever summary the map currently holds for the group of
`w` is either strictly older than `w` or already the summary of `w`. -/
def ConvInvA (w : Message) (acc : List (String × Contact)) : Prop :=
  ∀ c, lookupContact w.conversationId acc = some c →
    c.timestamp < w.timestamp ∨ c = mkContact w

theorem convStep_invA (w : Message) (acc : List (String × Contact))
    (m : Message) (hinv : ConvInvA w acc)
    (hm : m.conversationId = w.conversationId →
      m = w ∨ m.timestamp < w.timestamp) :
    ConvInvA w (convStep acc m) := by
  by_cases hp : m.conversationId = w.conversationId
  · intro c hc
    cases hx : lookupContact m.conversationId acc with
    | none =>
      rw [← hp, convStep_lookup_none acc m hx] at hc
      cases hc
      rcases hm hp with rfl | hlt
      · exact Or.inr rfl
      · exact Or.inl hlt
    | some c' =>
      by_cases hlt : c'.timestamp < m.timestamp
      · rw [← hp, convStep_lookup_lt acc m c' hx hlt] at hc
        cases hc
        rcases hm hp with rfl | hlt2
        · exact Or.inr rfl
        · exact Or.inl hlt2
      · rw [convStep_eq_of_ge acc m c' hx (Nat.le_of_not_lt hlt)] at hc
        exact hinv c hc
  · intro c hc
    rw [convStep_lookup_ne acc m _ hp] at hc
    exact hinv c hc

theorem convStep_trigger (w : Message) (acc : List (String × Contact))
    (hinv : ConvInvA w acc) :
    lookupContact w.conversationId (convStep acc w) = some (mkContact w) := by
  cases hx : lookupContact w.conversationId acc with
  | none => exact convStep_lookup_none acc w hx
  | some c =>
    rcases hinv c hx with hlt | rfl
    · exact convStep_lookup_lt acc w c hx hlt
    · rw [convStep_eq_of_ge acc w (mkContact w) hx (Nat.le_refl _)]
      exact hx

theorem convFold_invA (w : Message) (l : List Message) :
    ∀ acc, ConvInvA w acc →
    (∀ m ∈ l, m.conversationId = w.conversationId →
      m = w ∨ m.timestamp < w.timestamp) →
    ConvInvA w (l.foldl convStep acc) := by
  induction l with
  | nil => intro acc hinv _; exact hinv
  | cons m ms ih =>
    intro acc hinv hl
    rw [List.foldl_cons]
    exact ih (convStep acc m)
      (convStep_invA w acc m hinv (hl m (List.mem_cons_self _ _)))
      (fun m' hm' => hl m' (List.mem_cons_of_mem _ hm'))

/-- Once the summary of `w` is in place, messages of its group that are
not strictly newer leave it in place. -/
theorem convFold_keep (w : Message) (l : List Message) :
    ∀ acc, lookupContact w.conversationId acc = some (mkContact w) →
    (∀ m ∈ l, m.conversationId = w.conversationId →
      m = w ∨ m.timestamp < w.timestamp) →
    lookupContact w.conversationId (l.foldl convStep acc) =
      some (mkContact w) := by
  induction l with
  | nil => intro acc h _; exact h
  | cons m ms ih =>
    intro acc h hl
    rw [List.foldl_cons]
    refine ih (convStep acc m) ?_ (fun m' hm' => hl m' (List.mem_cons_of_mem _ hm'))
    by_cases hp : m.conversationId = w.conversationId
    · have hle : m.timestamp ≤ (mkContact w).timestamp := by
        rcases hl m (List.mem_cons_self _ _) hp with rfl | hlt
        · exact Nat.le_refl _
        · exact Nat.le_of_lt hlt
      rw [convStep_eq_of_ge acc m (mkContact w) (hp ▸ h) hle]
      exact h
    · rw [convStep_lookup_ne acc m _ hp]
      exact h

/-- The summary the grouping fold finally holds for the group of a
message `w` with the strictly greatest timestamp in its group is the
summary of `w`. -/
theorem convFold_latest (msgs : List Message) (w : Message) (hw : w ∈ msgs)
    (hmax : ∀ m ∈ msgs, m.conversationId = w.conversationId →
      m = w ∨ m.timestamp < w.timestamp) :
    lookupContact w.conversationId (msgs.foldl convStep []) =
      some (mkContact w) := by
  obtain ⟨l1, l2, rfl⟩ := List.append_of_mem hw
  rw [List.foldl_append, List.foldl_cons]
  have h1 : ∀ m ∈ l1, m.conversationId = w.conversationId →
      m = w ∨ m.timestamp < w.timestamp := fun m hm =>
    hmax m (List.mem_append_left _ hm)
  have h2 : ∀ m ∈ l2, m.conversationId = w.conversationId →
      m = w ∨ m.timestamp < w.timestamp := fun m hm =>
    hmax m (List.mem_append_right _ (List.mem_cons_of_mem _ hm))
  have hinv0 : ConvInvA w ([] : List (String × Contact)) := by
    intro c hc
    simp [lookupContact] at hc
  have hinv1 : ConvInvA w (l1.foldl convStep []) :=
    convFold_invA w l1 [] hinv0 h1
  exact convFold_keep w l2 _ (convStep_trigger w _ hinv1) h2

/-- Well-formedness of the conversation map: every entry's summary
carries its own key as phone, and keys are unique. -/
def ConvWF (l : List (String × Contact)) : Prop :=
  (∀ e ∈ l, e.2.phone = e.1) ∧ (l.map Prod.fst).Nodup

theorem keys_setContact (p : String) (c : Contact) :
    ∀ l : List (String × Contact),
    (setContact p c l).map Prod.fst =
      if p ∈ l.map Prod.fst then l.map Prod.fst
      else l.map Prod.fst ++ [p]
  | [] => by simp [setContact]
  | (k, c') :: rest => by
    by_cases hk : k = p
    · subst hk
      simp [setContact]
    · have hne : ¬p = k := fun h => hk h.symm
      simp only [setContact, if_neg hk, List.map_cons,
        keys_setContact p c rest, List.mem_cons]
      by_cases hp : p ∈ rest.map Prod.fst
      · simp [hp, hne]
      · simp [hp, hne]

theorem mem_setContact (p : String) (c : Contact) :
    ∀ l : List (String × Contact), ∀ e ∈ setContact p c l,
      e = (p, c) ∨ e ∈ l
  | [] => by simp [setContact]
  | (k, c') :: rest => by
    intro e he
    by_cases hk : k = p
    · subst hk
      simp only [setContact, if_true, eq_self_iff_true, List.mem_cons] at he
      rcases he with he | he
      · exact Or.inl he
      · exact Or.inr (List.mem_cons_of_mem _ he)
    · simp only [setContact, if_neg hk, List.mem_cons] at he
      rcases he with rfl | he
      · exact Or.inr (List.mem_cons_self _ _)
      · rcases mem_setContact p c rest e he with h | h
        · exact Or.inl h
        · exact Or.inr (List.mem_cons_of_mem _ h)

theorem setContact_wf (p : String) (c : Contact)
    (l : List (String × Contact)) (hwf : ConvWF l) (hc : c.phone = p) :
    ConvWF (setContact p c l) := by
  constructor
  · intro e he
    rcases mem_setContact p c l e he with rfl | h
    · exact hc
    · exact hwf.1 e h
  · rw [keys_setContact]
    by_cases hp : p ∈ l.map Prod.fst
    · rw [if_pos hp]; exact hwf.2
    · rw [if_neg hp]
      rw [List.nodup_append]
      exact ⟨hwf.2, List.nodup_singleton p,
        fun a ha hb => hp ((List.mem_singleton.mp hb) ▸ ha)⟩

theorem lookup_mem {p : String} {c : Contact} :
    ∀ {l : List (String × Contact)}, lookupContact p l = some c →
      (p, c) ∈ l := by
  intro l
  induction l with
  | nil => intro h; simp [lookupContact] at h
  | cons e rest ih =>
    obtain ⟨k, c'⟩ := e
    intro h
    simp only [lookupContact] at h
    by_cases hk : k = p
    · subst hk
      rw [if_pos rfl] at h
      cases h
      exact List.mem_cons_self _ _
    · rw [if_neg hk] at h
      exact List.mem_cons_of_mem _ (ih h)

theorem lookup_of_mem_nodup {p : String} {c : Contact} :
    ∀ {l : List (String × Contact)}, (p, c) ∈ l →
      (l.map Prod.fst).Nodup → lookupContact p l = some c := by
  intro l
  induction l with
  | nil => intro h; simp at h
  | cons e rest ih =>
    obtain ⟨k, c'⟩ := e
    intro h hnd
    simp only [List.map_cons, List.nodup_cons] at hnd
    rcases List.mem_cons.mp h with he | he
    · cases he
      simp [lookupContact]
    · have hkp : k ≠ p := by
        intro hk
        subst hk
        exact hnd.1 (List.mem_map_of_mem Prod.fst he)
      simp only [lookupContact, if_neg hkp]
      exact ih he hnd.2

theorem convStep_wf (acc : List (String × Contact)) (m : Message)
    (hwf : ConvWF acc) : ConvWF (convStep acc m) := by
  simp only [convStep]
  split_ifs with h1 h2
  · exact setContact_wf _ _ _ hwf rfl
  · cases hx : lookupContact m.conversationId acc with
    | none => exact hwf
    | some c =>
      have hphone : c.phone = m.conversationId := hwf.1 _ (lookup_mem hx)
      exact setContact_wf _ _ _ hwf hphone
  · exact hwf

theorem convFold_wf (l : List Message) :
    ∀ acc, ConvWF acc → ConvWF (l.foldl convStep acc) := by
  induction l with
  | nil => intro acc h; exact h
  | cons m ms ih =>
    intro acc h
    rw [List.foldl_cons]
    exact ih _ (convStep_wf acc m h)

/-- C5.  If the message with the strictly greatest canonical timestamp of
its conversation group has direction Incoming, the summary produced for
that group is unread; if it is Outgoing the summary is read — whatever
older messages (in particular older Incoming ones) the group contains. -/
theorem c5_unread_iff_latest_incoming (msgs : List Message) (w : Message)
    (hw : w ∈ msgs)
    (hmax : ∀ m ∈ msgs, m.conversationId = w.conversationId →
      m = w ∨ m.timestamp < w.timestamp) :
    (∃ c ∈ buildConversations msgs, c.phone = w.conversationId
        ∧ c.unread = decide (w.direction = Direction.Incoming))
    ∧ (∀ c ∈ buildConversations msgs, c.phone = w.conversationId →
        c.unread = decide (w.direction = Direction.Incoming)) := by
  have hlook := convFold_latest msgs w hw hmax
  have hwf : ConvWF (msgs.foldl convStep []) :=
    convFold_wf msgs [] ⟨by simp, by simp⟩
  have hmem : (w.conversationId, mkContact w) ∈ msgs.foldl convStep [] :=
    lookup_mem hlook
  have hsortmem : mkContact w ∈ buildConversations msgs := by
    simp only [buildConversations]
    exact (List.mem_insertionSort contactGe).mpr
      (List.mem_map_of_mem Prod.snd hmem)
  refine ⟨⟨mkContact w, hsortmem, rfl, rfl⟩, ?_⟩
  intro c hc hphone
  have hval2 : c ∈ (msgs.foldl convStep []).map Prod.snd := by
    simp only [buildConversations] at hc
    exact (List.mem_insertionSort contactGe).mp hc
  obtain ⟨e, he, rfl⟩ := List.mem_map.mp hval2
  have hkey : e.1 = w.conversationId := by
    rw [← hwf.1 e he]
    exact hphone
  have hmem2 : (w.conversationId, e.2) ∈ msgs.foldl convStep [] := by
    rw [← hkey]
    exact he
  have hlook2 := lookup_of_mem_nodup hmem2 hwf.2
  have heq : mkContact w = e.2 :=
    Option.some.inj (hlook.symm.trans hlook2)
  rw [← heq]
  rfl

/-- Witness for C5: a group with an older Incoming and a newer Outgoing
message is read. -/
theorem c5_unread_iff_latest_incoming_witness :
    (∃ c ∈ buildConversations
        [⟨"555", 1, "hi", Direction.Incoming, "a", none⟩,
         ⟨"555", 2, "yo", Direction.Outgoing, "b", some MessageStatus.sent⟩],
      c.phone = "555" ∧ c.unread = decide
        ((Direction.Outgoing : Direction) = Direction.Incoming))
    ∧ (∀ c ∈ buildConversations
        [⟨"555", 1, "hi", Direction.Incoming, "a", none⟩,
         ⟨"555", 2, "yo", Direction.Outgoing, "b", some MessageStatus.sent⟩],
      c.phone = "555" → c.unread = decide
        ((Direction.Outgoing : Direction) = Direction.Incoming)) :=
  c5_unread_iff_latest_incoming
    [⟨"555", 1, "hi", Direction.Incoming, "a", none⟩,
     ⟨"555", 2, "yo", Direction.Outgoing, "b", some MessageStatus.sent⟩]
    ⟨"555", 2, "yo", Direction.Outgoing, "b", some MessageStatus.sent⟩
    (by decide) (by decide)

/-! ### Claim C9: conversation aggregation is pure, non-mutating, sorted -/

/-- C9.  One `fetchConversations` call leaves the state unchanged, an
immediately repeated call returns the identical conversation list, the
list is sorted newest-first by representative timestamp, and the output
depends on the state only through the stored message list. -/
theorem c9_fetchConversations_pure_sorted (s : ApiState) :
    (fetchConversations s).2 = s
    ∧ (fetchConversations ((fetchConversations s).2)).1 = (fetchConversations s).1
    ∧ List.Sorted contactGe ((fetchConversations s).1.data)
    ∧ (∀ s' : ApiState, s.allMessages = s'.allMessages →
        (fetchConversations s).1 = (fetchConversations s').1) := by
  refine ⟨rfl, rfl, ?_, ?_⟩
  · simp only [fetchConversations, buildConversations]
    exact List.sorted_insertionSort contactGe _
  · intro s' h
    simp only [fetchConversations, buildConversations, h]

/-- Witness for C9: two states sharing the message list but differing in
the dedup set yield the same conversation list. -/
theorem c9_fetchConversations_pure_sorted_witness :
    (fetchConversations
      ⟨[], [⟨"555", 1, "hi", Direction.Incoming, "a", none⟩]⟩).1 =
    (fetchConversations
      ⟨["zz"], [⟨"555", 1, "hi", Direction.Incoming, "a", none⟩]⟩).1 :=
  (c9_fetchConversations_pure_sorted
    ⟨[], [⟨"555", 1, "hi", Direction.Incoming, "a", none⟩]⟩).2.2.2
    ⟨["zz"], [⟨"555", 1, "hi", Direction.Incoming, "a", none⟩]⟩ rfl
